import Mathlib

/-!
Shallow embedding of the Drive-search repository
(`advanced_main.py`, `pdf_extractor.py`): the hybrid retrieval/merge
pipeline, the Drive/local reconciliation check, the cosine-similarity
scorer, and the selective re-index (sync) procedure, with theorems
settling the frozen claims about them.

Conventions used throughout:
- Python strings are Lean `String` (lexicographic `<` on both sides).
- Optional / possibly-missing dict fields are `Option` fields; the Python
  idiom `d.get(k, default)` is `Option.getD`.
- Python floats are modelled as exact rationals `ℚ` except where NaN /
  exceptions matter (see `NpResult` for the cosine scorer).
- Fallible calls to external collaborators (Drive API, OpenAI) are
  `Except String _` parameters; a caught exception is the `.error` case.
-/

/-- Python substring test: the expression WORD-`in` (`needle in hay`) over
strings, as used for the title-hit check in `hybrid_search_endpoint`
(advanced_main.py line 405). -/
def pyIn (needle hay : String) : Bool :=
  hay.data.tails.any (fun t => needle.data.isPrefixOf t)

/-- Python `str.lower()`, character by character (kernel-reducible model
of `String.toLower`). -/
def pyLower (s : String) : String := ⟨s.data.map Char.toLower⟩

/-- Lexicographic strict comparison of two character lists by code
point. -/
def charListLt : List Char → List Char → Bool
  | _, [] => false
  | [], _ :: _ => true
  | a :: as, b :: bs =>
    if a < b then true
    else if b < a then false
    else charListLt as bs

/-- Python string `<`: lexicographic by code point (kernel-reducible
model of the Lean order on `String`, see `pyStrLt_iff_lt`). -/
def pyStrLt (a b : String) : Bool := charListLt a.data b.data

theorem charListLt_iff : ∀ a b : List Char, charListLt a b = true ↔
    List.Lex (fun x y => x < y) a b := by
  intro a
  induction a with
  | nil =>
    intro b
    cases b with
    | nil =>
      simp only [charListLt, Bool.false_eq_true, false_iff]
      intro h
      cases h
    | cons c cs =>
      simp only [charListLt, true_iff]
      exact List.Lex.nil
  | cons a as ih =>
    intro b
    cases b with
    | nil =>
      simp only [charListLt, Bool.false_eq_true, false_iff]
      intro h
      cases h
    | cons b bs =>
      by_cases hab : a < b
      · simp only [charListLt, if_pos hab, true_iff]
        exact List.Lex.rel hab
      · by_cases hba : b < a
        · simp only [charListLt, if_neg hab, if_pos hba, Bool.false_eq_true, false_iff]
          intro h
          cases h with
          | cons h => exact absurd hba (lt_irrefl a)
          | rel h => exact hab h
        · have hei : a = b := le_antisymm (le_of_not_lt hba) (le_of_not_lt hab)
          subst hei
          simp only [charListLt, if_neg hab, if_neg hba, ih bs]
          constructor
          · exact fun h => List.Lex.cons h
          · intro h
            cases h with
            | cons h => exact h
            | rel h => exact absurd h hab

theorem pyStrLt_iff_lt (a b : String) : pyStrLt a b = true ↔ a < b := by
  rw [String.lt_iff_toList_lt]
  exact charListLt_iff a.data b.data

theorem charListLt_irrefl : ∀ a : List Char, charListLt a a = false := by
  intro a
  induction a with
  | nil => rfl
  | cons c cs ih =>
    simp only [charListLt, if_neg (lt_irrefl c), ih]

theorem pyStrLt_irrefl (s : String) : pyStrLt s s = false := charListLt_irrefl s.data

/-- Stable insertion of `a` into `l`: `a` is placed before the first
element `b` with `le a b = true`. -/
def pyInsert {α : Type} (le : α → α → Bool) (a : α) : List α → List α
  | [] => [a]
  | b :: bs => if le a b then a :: b :: bs else b :: pyInsert le a bs

/-- Model of Python `list.sort(key=..., reverse=...)`: a stable sort with
respect to the total preorder `le`, where `le a b` means "a may be placed
before b" (for `reverse=True` with key `k`: `le a b = ¬(k a < k b)`).
Python guarantees a stable sort; any stable sort for a total `le` produces
the same output list, so stable insertion sort is a faithful model. -/
def pySort {α : Type} (le : α → α → Bool) : List α → List α
  | [] => []
  | a :: as => pyInsert le a (pySort le as)

theorem pyInsert_perm {α : Type} (le : α → α → Bool) (a : α) (l : List α) :
    List.Perm (pyInsert le a l) (a :: l) := by
  induction l with
  | nil => exact List.Perm.refl _
  | cons b bs ih =>
    unfold pyInsert
    by_cases h : le a b = true
    · simp [h]
    · rw [if_neg (by simp [h])]
      exact (List.Perm.cons b ih).trans (List.Perm.swap a b bs)

theorem pySort_perm {α : Type} (le : α → α → Bool) (l : List α) :
    List.Perm (pySort le l) l := by
  induction l with
  | nil => exact List.Perm.refl _
  | cons a as ih =>
    exact (pyInsert_perm le a (pySort le as)).trans (List.Perm.cons a ih)

theorem pySort_mem {α : Type} (le : α → α → Bool) (l : List α) (x : α) :
    x ∈ pySort le l ↔ x ∈ l :=
  (pySort_perm le l).mem_iff

/-- Origin tag of a merged hybrid result (`source` field of the pydantic
`HybridResult`; the Python literal values are `"drive"` and `"local"`). -/
inductive ResultSource : Type
  | drive
  | localDoc
deriving DecidableEq, Repr

/-- One record of the persisted `embeddings.json` list as read by the
semantic-search path (`search_semantic_internal`): `name` and `embedding`
are read unconditionally (`d["name"]`, `d["embedding"]`), every other
field through `d.get(...)` and is therefore optional. -/
structure StoredDoc : Type where
  id : Option String
  name : String
  text : Option String
  embedding : List ℚ
  mimeType : Option String
  webViewLink : Option String
  modifiedTime : Option String
  size : Option Int
deriving DecidableEq, Repr

/-- One scored dict produced by `search_semantic_internal`
(advanced_main.py lines 492-501); the `id` key is always set there
(to `d.get("id", d["name"])`). -/
structure ScoredDoc : Type where
  id : String
  name : String
  text : String
  score : ℚ
  mimeType : Option String
  webViewLink : Option String
  modifiedTime : Option String
  size : Option Int
deriving DecidableEq, Repr

/-- A file dict returned by the Drive listing used from the hybrid path:
`id` and `name` are always present in a Drive response and are read
unconditionally, the rest through `.get`. -/
structure DriveFile : Type where
  id : String
  name : String
  mimeType : Option String
  webViewLink : Option String
  modifiedTime : Option String
  size : Option Int
deriving DecidableEq, Repr

/-- The pydantic `HybridResult` model (advanced_main.py lines 249-259).
`title_hit` is modelled as `Bool` since the code always passes a concrete
boolean for it. -/
structure HybridResult : Type where
  source : ResultSource
  id : String
  name : String
  mimeType : Option String
  webViewLink : Option String
  modifiedTime : Option String
  size : Option Int
  snippet : Option String
  score_semantic : Option ℚ
  title_hit : Bool
deriving DecidableEq, Repr

/-- The `HybridResult` built for a semantic (local) hit in the first merge
loop of `hybrid_search_endpoint` (lines 384-395): source `"local"`,
snippet = first 300 characters of the text, `title_hit=False`. -/
def mkLocalResult (s : ScoredDoc) : HybridResult :=
  { source := ResultSource.localDoc
    id := s.id
    name := s.name
    mimeType := s.mimeType
    webViewLink := s.webViewLink
    modifiedTime := s.modifiedTime
    size := s.size
    snippet := some (s.text.take 300)
    score_semantic := some s.score
    title_hit := false }

/-- The `HybridResult` built for a Drive hit in the second merge loop
(lines 402-418): no snippet, no semantic score, `title_hit` is the
case-insensitive substring test of the query in the file name. -/
def mkDriveResult (query : String) (f : DriveFile) : HybridResult :=
  { source := ResultSource.drive
    id := f.id
    name := f.name
    mimeType := f.mimeType
    webViewLink := f.webViewLink
    modifiedTime := f.modifiedTime
    size := f.size
    snippet := none
    score_semantic := none
    title_hit := pyIn (pyLower query) (pyLower f.name) }

/-- First merge loop (advanced_main.py lines 380-395): semantic results
are appended in order, keyed by `sem_result.get("id", sem_result["name"])`
(which is `ScoredDoc.id`, always set by `search_semantic_internal`), each
new id being added to the `seen_ids` set.  Returns the appended results
and the final seen set. -/
def addSemanticResults : List ScoredDoc → List String → List HybridResult × List String
  | [], seen => ([], seen)
  | s :: rest, seen =>
    if s.id ∈ seen then addSemanticResults rest seen
    else
      let p := addSemanticResults rest (s.id :: seen)
      (mkLocalResult s :: p.1, p.2)

/-- Second merge loop (lines 398-418): Drive results whose id was not yet
seen are appended in order. -/
def addDriveResults (query : String) : List DriveFile → List String → List HybridResult × List String
  | [], seen => ([], seen)
  | f :: rest, seen =>
    if f.id ∈ seen then addDriveResults query rest seen
    else
      let p := addDriveResults query rest (f.id :: seen)
      (mkDriveResult query f :: p.1, p.2)

/-- The sort key of the final ranking (advanced_main.py lines 421-425):
`(-(score_semantic or 0), -(1 if title_hit else 0), modifiedTime or "")`.
`x or d` on a float/str is `getD` here: `None` and the falsy values
`0.0` / `""` are all mapped to the default, which equals them. -/
def sort_key (item : HybridResult) : ℚ × ℤ × String :=
  (-(item.score_semantic.getD 0), -(if item.title_hit then (1 : ℤ) else 0),
    item.modifiedTime.getD "")

/-- Lexicographic strict order on the Python sort-key triple (Python
compares tuples lexicographically). -/
def keyLt (x y : ℚ × ℤ × String) : Bool :=
  decide (x.1 < y.1) ||
    (decide (x.1 = y.1) &&
      (decide (x.2.1 < y.2.1) ||
        (decide (x.2.1 = y.2.1) && pyStrLt x.2.2 y.2.2)))

/-- The comparator realising `merged.sort(key=sort_key, reverse=True)`:
stable descending by `sort_key`, i.e. `a` may precede `b` iff
`¬(sort_key a < sort_key b)`. -/
def hrLe (a b : HybridResult) : Bool :=
  !(keyLt (sort_key a) (sort_key b))

/-- The merge-and-rank core of `hybrid_search_endpoint` (lines 376-427):
semantic results first (establishing the seen-id set), then Drive results,
then the in-place sort with `key=sort_key, reverse=True`. -/
def hybridMerge (query : String) (semantic : List ScoredDoc) (drive : List DriveFile) :
    List HybridResult :=
  let p1 := addSemanticResults semantic []
  let p2 := addDriveResults query drive p1.2
  pySort hrLe (p1.1 ++ p2.1)

/-- Function `search_drive_internal` (advanced_main.py lines 453-476): the whole
body is wrapped in try/except; its one fallible step (the Drive API
listing, passed here as `resp`) either yields the file list or an
exception, in which case the function returns `[]`. -/
def search_drive_internal (resp : Except String (List DriveFile)) : List DriveFile :=
  match resp with
  | Except.ok fs => fs
  | Except.error _ => []

/-- The scored dict built for one stored document in
`search_semantic_internal` (advanced_main.py lines 492-501):
`"id": d.get("id", d["name"])`, `"text": d.get("text", "")`, the other
fields through `.get`. -/
def mkScored (d : StoredDoc) (score : ℚ) : ScoredDoc :=
  { id := d.id.getD d.name
    name := d.name
    text := d.text.getD ""
    score := score
    mimeType := d.mimeType
    webViewLink := d.webViewLink
    modifiedTime := d.modifiedTime
    size := d.size }

/-- Comparator of `scored.sort(key=lambda x: x["score"], reverse=True)`
(line 506): stable descending by score. -/
def scoreLe (a b : ScoredDoc) : Bool := !(decide (a.score < b.score))

/-- Function `search_semantic_internal` (advanced_main.py lines 478-511).
The two fallible collaborator calls are parameters: `embedResp` is the
query-embedding call (its failure is caught by the outer try/except and
yields `[]`), and `sim` is the float-level outcome of
`cosine_similarity(query_emb, d["embedding"])` — an exception
(numpy `ValueError` on dimension mismatch) is caught by the per-document
try/except and the document skipped, otherwise the float score is an
exact rational here.  Scored docs are sorted descending by score and
truncated to `top_n`. -/
def search_semantic_internal (embedResp : Except String (List ℚ))
    (sim : List ℚ → List ℚ → Except String ℚ)
    (store : List StoredDoc) (top_n : Nat) : List ScoredDoc :=
  match embedResp with
  | Except.error _ => []
  | Except.ok query_emb =>
    let scored := store.filterMap (fun d =>
      match sim query_emb d.embedding with
      | Except.error _ => none
      | Except.ok s => some (mkScored d s))
    (pySort scoreLe scored).take top_n

/-- The hybrid endpoint's result list (advanced_main.py lines 362-446):
both branches are awaited, then merged and ranked.  (The GPT summary and
the response envelope do not affect the result list.) -/
def hybrid_search (query : String) (driveResp : Except String (List DriveFile))
    (embedResp : Except String (List ℚ)) (sim : List ℚ → List ℚ → Except String ℚ)
    (store : List StoredDoc) (top_n : Nat) : List HybridResult :=
  hybridMerge query (search_semantic_internal embedResp sim store top_n)
    (search_drive_internal driveResp)

/-! Lemmas about the two merge loops. -/

theorem addSemanticResults_mem_ids (l : List ScoredDoc) (seen : List String) (i : String) :
    i ∈ ((addSemanticResults l seen).1.map HybridResult.id) ↔
      (i ∈ l.map ScoredDoc.id ∧ i ∉ seen) := by
  induction l generalizing seen with
  | nil => simp [addSemanticResults]
  | cons s rest ih =>
    by_cases h : s.id ∈ seen
    · simp only [addSemanticResults, if_pos h, ih, List.map_cons, List.mem_cons]
      constructor
      · rintro ⟨hm, hn⟩; exact ⟨Or.inr hm, hn⟩
      · rintro ⟨hm | hm, hn⟩
        · exact absurd h (hm ▸ hn)
        · exact ⟨hm, hn⟩
    · simp only [addSemanticResults, if_neg h, List.map_cons, List.mem_cons, mkLocalResult, ih,
        List.mem_cons, not_or]
      constructor
      · rintro (rfl | ⟨hm, hi, hs⟩)
        · exact ⟨Or.inl rfl, h⟩
        · exact ⟨Or.inr hm, hs⟩
      · rintro ⟨rfl | hm, hn⟩
        · exact Or.inl rfl
        · by_cases hsi : i = s.id
          · exact Or.inl hsi
          · exact Or.inr ⟨hm, hsi, hn⟩

theorem addSemanticResults_nodup (l : List ScoredDoc) (seen : List String) :
    ((addSemanticResults l seen).1.map HybridResult.id).Nodup := by
  induction l generalizing seen with
  | nil => simp [addSemanticResults]
  | cons s rest ih =>
    by_cases h : s.id ∈ seen
    · simpa [addSemanticResults, if_pos h] using ih seen
    · simp only [addSemanticResults, if_neg h, List.map_cons, List.nodup_cons]
      refine ⟨fun hm => ?_, ih (s.id :: seen)⟩
      have := (addSemanticResults_mem_ids rest (s.id :: seen) (mkLocalResult s).id).1 hm
      exact this.2 (by simp [mkLocalResult])

theorem addSemanticResults_elem (l : List ScoredDoc) (seen : List String) (r : HybridResult) :
    r ∈ (addSemanticResults l seen).1 → ∃ s ∈ l, r = mkLocalResult s := by
  induction l generalizing seen with
  | nil => simp [addSemanticResults]
  | cons s rest ih =>
    by_cases h : s.id ∈ seen
    · rw [addSemanticResults, if_pos h]
      intro hr
      obtain ⟨t, ht, rfl⟩ := ih seen hr
      exact ⟨t, List.mem_cons_of_mem s ht, rfl⟩
    · rw [addSemanticResults, if_neg h]
      intro hr
      rcases List.mem_cons.1 hr with rfl | hr
      · exact ⟨s, List.mem_cons_self s rest, rfl⟩
      · obtain ⟨t, ht, rfl⟩ := ih (s.id :: seen) hr
        exact ⟨t, List.mem_cons_of_mem s ht, rfl⟩

theorem addSemanticResults_seen (l : List ScoredDoc) (seen : List String) (i : String) :
    i ∈ (addSemanticResults l seen).2 ↔ i ∈ seen ∨ i ∈ l.map ScoredDoc.id := by
  induction l generalizing seen with
  | nil => simp [addSemanticResults]
  | cons s rest ih =>
    by_cases h : s.id ∈ seen
    · rw [addSemanticResults, if_pos h]
      rw [ih seen]
      simp only [List.map_cons, List.mem_cons]
      constructor
      · rintro (hs | hm)
        · exact Or.inl hs
        · exact Or.inr (Or.inr hm)
      · rintro (hs | rfl | hm)
        · exact Or.inl hs
        · exact Or.inl h
        · exact Or.inr hm
    · rw [addSemanticResults, if_neg h]
      show i ∈ (addSemanticResults rest (s.id :: seen)).2 ↔ _
      rw [ih (s.id :: seen)]
      simp only [List.mem_cons, List.map_cons]
      tauto

theorem addDriveResults_mem_ids (q : String) (l : List DriveFile) (seen : List String)
    (i : String) :
    i ∈ ((addDriveResults q l seen).1.map HybridResult.id) ↔
      (i ∈ l.map DriveFile.id ∧ i ∉ seen) := by
  induction l generalizing seen with
  | nil => simp [addDriveResults]
  | cons f rest ih =>
    by_cases h : f.id ∈ seen
    · simp only [addDriveResults, if_pos h, ih, List.map_cons, List.mem_cons]
      constructor
      · rintro ⟨hm, hn⟩; exact ⟨Or.inr hm, hn⟩
      · rintro ⟨hm | hm, hn⟩
        · exact absurd h (hm ▸ hn)
        · exact ⟨hm, hn⟩
    · simp only [addDriveResults, if_neg h, List.map_cons, List.mem_cons, mkDriveResult, ih,
        List.mem_cons, not_or]
      constructor
      · rintro (rfl | ⟨hm, hi, hs⟩)
        · exact ⟨Or.inl rfl, h⟩
        · exact ⟨Or.inr hm, hs⟩
      · rintro ⟨rfl | hm, hn⟩
        · exact Or.inl rfl
        · by_cases hsi : i = f.id
          · exact Or.inl hsi
          · exact Or.inr ⟨hm, hsi, hn⟩

theorem addDriveResults_nodup (q : String) (l : List DriveFile) (seen : List String) :
    ((addDriveResults q l seen).1.map HybridResult.id).Nodup := by
  induction l generalizing seen with
  | nil => simp [addDriveResults]
  | cons f rest ih =>
    by_cases h : f.id ∈ seen
    · simpa [addDriveResults, if_pos h] using ih seen
    · simp only [addDriveResults, if_neg h, List.map_cons, List.nodup_cons]
      refine ⟨fun hm => ?_, ih (f.id :: seen)⟩
      have := (addDriveResults_mem_ids q rest (f.id :: seen) (mkDriveResult q f).id).1 hm
      exact this.2 (by simp [mkDriveResult])

theorem addDriveResults_elem (q : String) (l : List DriveFile) (seen : List String)
    (r : HybridResult) :
    r ∈ (addDriveResults q l seen).1 → ∃ f ∈ l, r = mkDriveResult q f ∧ r.id ∉ seen := by
  induction l generalizing seen with
  | nil => simp [addDriveResults]
  | cons f rest ih =>
    by_cases h : f.id ∈ seen
    · rw [addDriveResults, if_pos h]
      intro hr
      obtain ⟨g, hg, rfl, hs⟩ := ih seen hr
      exact ⟨g, List.mem_cons_of_mem f hg, rfl, hs⟩
    · rw [addDriveResults, if_neg h]
      intro hr
      rcases List.mem_cons.1 hr with rfl | hr
      · exact ⟨f, List.mem_cons_self f rest, rfl, by simpa [mkDriveResult] using h⟩
      · obtain ⟨g, hg, rfl, hs⟩ := ih (f.id :: seen) hr
        exact ⟨g, List.mem_cons_of_mem f hg, rfl,
          fun hmem => hs (List.mem_cons_of_mem f.id hmem)⟩

theorem hybridMerge_ids_perm (q : String) (sem : List ScoredDoc) (dr : List DriveFile) :
    List.Perm ((hybridMerge q sem dr).map HybridResult.id)
      (((addSemanticResults sem []).1 ++
        (addDriveResults q dr (addSemanticResults sem []).2).1).map HybridResult.id) :=
  List.Perm.map HybridResult.id (pySort_perm hrLe _)

theorem hybridMerge_mem (q : String) (sem : List ScoredDoc) (dr : List DriveFile)
    (r : HybridResult) :
    r ∈ hybridMerge q sem dr ↔
      r ∈ (addSemanticResults sem []).1 ∨
        r ∈ (addDriveResults q dr (addSemanticResults sem []).2).1 := by
  unfold hybridMerge
  rw [pySort_mem, List.mem_append]

theorem hybridMerge_mem_ids (q : String) (sem : List ScoredDoc) (dr : List DriveFile)
    (i : String) :
    i ∈ (hybridMerge q sem dr).map HybridResult.id ↔
      i ∈ sem.map ScoredDoc.id ∨ (i ∈ dr.map DriveFile.id ∧ i ∉ sem.map ScoredDoc.id) := by
  rw [(hybridMerge_ids_perm q sem dr).mem_iff, List.map_append, List.mem_append,
    addSemanticResults_mem_ids, addDriveResults_mem_ids, addSemanticResults_seen]
  simp only [List.not_mem_nil, and_true, false_or, not_or]
  tauto

theorem hybridMerge_ids_nodup (q : String) (sem : List ScoredDoc) (dr : List DriveFile) :
    ((hybridMerge q sem dr).map HybridResult.id).Nodup := by
  refine ((hybridMerge_ids_perm q sem dr).nodup_iff).2 ?_
  rw [List.map_append, List.nodup_append]
  refine ⟨addSemanticResults_nodup sem [], addDriveResults_nodup q dr _, ?_⟩
  intro i hi hj
  have h1 := (addSemanticResults_mem_ids sem [] i).1 hi
  have h2 := (addDriveResults_mem_ids q dr _ i).1 hj
  exact h2.2 ((addSemanticResults_seen sem [] i).2 (Or.inr h1.1))

/-- Claim C1 (code bug): the final ranking of `hybrid_search_endpoint` is
the exact opposite of the claimed (and comment-documented) order on the
first two keys.  `merged.sort(key=sort_key, reverse=True)` with
`sort_key = (-score, -title, time)` double-reverses: a local result with
semantic score 1 is ranked BELOW an unscored remote result (ascending
score, so an absent score ranks above all positive ones), and a remote
result whose title matches the query is ranked BELOW one whose title does
not. -/
theorem C1_merge_rank_inverted :
    (hybridMerge "q"
        [{ id := "a", name := "alpha", text := "t", score := 1, mimeType := none,
           webViewLink := none, modifiedTime := none, size := none }]
        [{ id := "b", name := "beta", mimeType := none, webViewLink := none,
           modifiedTime := none, size := none }]).map HybridResult.id = ["b", "a"] ∧
    (hybridMerge "q" []
        [{ id := "hit", name := "aqua", mimeType := none, webViewLink := none,
           modifiedTime := none, size := none },
         { id := "nohit", name := "beta", mimeType := none, webViewLink := none,
           modifiedTime := none, size := none }]).map HybridResult.id = ["nohit", "hit"] := by
  constructor
  · decide
  · decide

/-- Claim C3: in every hybrid merge, output ids are pairwise distinct, and
an id occurring both among the local semantic results and the remote
listing yields exactly one output entry, sourced local. -/
theorem C3_dedup_local_priority (q : String) (sem : List ScoredDoc) (dr : List DriveFile)
    (i : String) :
    ((hybridMerge q sem dr).map HybridResult.id).Nodup ∧
    (i ∈ sem.map ScoredDoc.id → i ∈ dr.map DriveFile.id →
      ((hybridMerge q sem dr).map HybridResult.id).count i = 1 ∧
      ∀ r ∈ hybridMerge q sem dr, r.id = i → r.source = ResultSource.localDoc) := by
  refine ⟨hybridMerge_ids_nodup q sem dr, fun hs hd => ⟨?_, ?_⟩⟩
  · have hmem : i ∈ (hybridMerge q sem dr).map HybridResult.id :=
      (hybridMerge_mem_ids q sem dr i).2 (Or.inl hs)
    have hle := List.nodup_iff_count_le_one.1 (hybridMerge_ids_nodup q sem dr) i
    have hge := List.count_pos_iff.2 hmem
    omega
  · intro r hr hri
    rcases (hybridMerge_mem q sem dr r).1 hr with h | h
    · obtain ⟨s, _, rfl⟩ := addSemanticResults_elem sem [] r h
      rfl
    · obtain ⟨f, _, rfl, hseen⟩ := addDriveResults_elem q dr _ r h
      exact absurd ((addSemanticResults_seen sem [] _).2 (Or.inr (hri ▸ hs))) hseen

/-- Concrete scored local result with id "x" (fixture). -/
def sdX : ScoredDoc :=
  { id := "x", name := "n", text := "", score := 1, mimeType := none,
    webViewLink := none, modifiedTime := none, size := none }

/-- Concrete Drive result with the same id "x" (fixture). -/
def dfX : DriveFile :=
  { id := "x", name := "n", mimeType := none, webViewLink := none,
    modifiedTime := none, size := none }

/-- Witness for C3 at a concrete input: id "x" occurs in both branches;
the merged output has exactly one entry with id "x". -/
theorem C3_dedup_local_priority_witness :
    ("x" ∈ ([sdX].map ScoredDoc.id) ∧ "x" ∈ ([dfX].map DriveFile.id)) ∧
      ((hybridMerge "q" [sdX] [dfX]).map HybridResult.id).count "x" = 1 :=
  ⟨⟨by decide, by decide⟩,
    ((C3_dedup_local_priority "q" [sdX] [dfX] "x").2 (by decide) (by decide)).1⟩

/-- Similarity collaborator used in concrete C4 scenarios: always
succeeds, score = head of the stored embedding. -/
def simHead : List ℚ → List ℚ → Except String ℚ :=
  fun _ e => Except.ok (e.headD 0)

/-- A three-document local store (fixture for the C4 scenario). -/
def storeC4 : List StoredDoc :=
  [{ id := some "d1", name := "n1", text := some "", embedding := [3], mimeType := none,
     webViewLink := none, modifiedTime := none, size := none },
   { id := some "d2", name := "n2", text := some "", embedding := [2], mimeType := none,
     webViewLink := none, modifiedTime := none, size := none },
   { id := some "d3", name := "n3", text := some "", embedding := [1], mimeType := none,
     webViewLink := none, modifiedTime := none, size := none }]

/-- Claim C4: a failing retrieval branch contributes zero results, the
other branch's results are still returned (both functions are total:
the exception is consumed inside the branch).  Part 1: a failed Drive
listing yields `[]`.  Part 2: with the Drive branch failed, every merged
result is local and the output ids are exactly the semantic-result ids.
Part 3: with the semantic branch failed (embedding call error), every
merged result is remote and the output ids are exactly the deduplicated
Drive ids.  Part 4: the concrete scenario — remote listing unreachable,
local store of 3 documents — returns exactly the 3 local results. -/
theorem C4_branch_failure_degrades :
    (∀ e, search_drive_internal (Except.error e) = []) ∧
    (∀ q sem e,
      (∀ r ∈ hybridMerge q sem (search_drive_internal (Except.error e)),
        r.source = ResultSource.localDoc) ∧
      (∀ i, i ∈ (hybridMerge q sem (search_drive_internal (Except.error e))).map
          HybridResult.id ↔ i ∈ sem.map ScoredDoc.id)) ∧
    (∀ q dr sim store top_n e,
      (∀ r ∈ hybridMerge q (search_semantic_internal (Except.error e) sim store top_n) dr,
        r.source = ResultSource.drive) ∧
      (∀ i, i ∈ (hybridMerge q (search_semantic_internal (Except.error e) sim store top_n)
          dr).map HybridResult.id ↔ i ∈ dr.map DriveFile.id)) ∧
    ((hybrid_search "q" (Except.error "unreachable") (Except.ok [1]) simHead storeC4 10).map
        HybridResult.id = ["d3", "d2", "d1"] ∧
      ∀ r ∈ hybrid_search "q" (Except.error "unreachable") (Except.ok [1]) simHead storeC4 10,
        r.source = ResultSource.localDoc) := by
  refine ⟨fun e => rfl, fun q sem e => ⟨?_, ?_⟩, fun q dr sim store top_n e => ⟨?_, ?_⟩, ?_, ?_⟩
  · intro r hr
    rcases (hybridMerge_mem q sem [] r).1 hr with h | h
    · obtain ⟨s, _, rfl⟩ := addSemanticResults_elem sem [] r h
      rfl
    · simp [addDriveResults] at h
  · intro i
    rw [hybridMerge_mem_ids]
    simp [search_drive_internal]
  · intro r hr
    rcases (hybridMerge_mem q [] dr r).1 hr with h | h
    · simp [search_semantic_internal, addSemanticResults, pySort] at h
    · obtain ⟨f, _, rfl, _⟩ := addDriveResults_elem q dr _ r h
      rfl
  · intro i
    rw [show search_semantic_internal (Except.error e) sim store top_n = [] from rfl,
      hybridMerge_mem_ids]
    simp
  · decide
  · decide

/-- Witness for C4: the degradation theorem applied at a concrete failed
Drive branch with one local result. -/
theorem C4_branch_failure_degrades_witness :
    (mkLocalResult sdX).source = ResultSource.localDoc :=
  (C4_branch_failure_degrades.2.1 "q" [sdX] "boom").1 (mkLocalResult sdX)
    (by rw [show hybridMerge "q" [sdX] (search_drive_internal (Except.error "boom")) =
          [mkLocalResult sdX] from rfl]; exact List.mem_singleton_self _)

/-- Local store with one record that lacks an `id` field (fixture for
C10): only its display name identifies it. -/
def storeNoId : List StoredDoc :=
  [{ id := none, name := "report.pdf", text := some "", embedding := [1], mimeType := none,
     webViewLink := none, modifiedTime := none, size := none }]

/-- Remote listing holding the same underlying document under its Drive
store id (fixture for C10). -/
def driveReport : List DriveFile :=
  [{ id := "abc123", name := "report.pdf", mimeType := none, webViewLink := none,
     modifiedTime := none, size := none }]

/-- Claim C10: a local record without an `id` field is keyed by its name
(`d.get("id", d["name"])` in `search_semantic_internal`, reused as the
dedup key and output id in the merge), so a local record and a remote hit
for the same underlying document (local keyed by name, remote by store
id) are NOT deduplicated: both appear in the merged output. -/
theorem C10_name_fallback_breaks_dedup :
    (∀ (d : StoredDoc) (s : ℚ), d.id = none → (mkScored d s).id = d.name) ∧
    ((hybrid_search "report" (Except.ok driveReport) (Except.ok [1]) simHead storeNoId
        10).map HybridResult.id = ["abc123", "report.pdf"] ∧
      (hybrid_search "report" (Except.ok driveReport) (Except.ok [1]) simHead storeNoId
        10).map HybridResult.name = ["report.pdf", "report.pdf"] ∧
      (hybrid_search "report" (Except.ok driveReport) (Except.ok [1]) simHead storeNoId
        10).map HybridResult.source = [ResultSource.drive, ResultSource.localDoc]) := by
  refine ⟨fun d s h => ?_, by decide, by decide, by decide⟩
  simp [mkScored, h]

/-- The id-less record of `storeNoId`. -/
def storeNoIdRec : StoredDoc :=
  { id := none, name := "report.pdf", text := some "", embedding := [1], mimeType := none,
    webViewLink := none, modifiedTime := none, size := none }

/-- Witness for C10: the name-fallback equation applied to the concrete
id-less record. -/
theorem C10_name_fallback_breaks_dedup_witness :
    (mkScored storeNoIdRec 1).id = storeNoIdRec.name :=
  C10_name_fallback_breaks_dedup.1 storeNoIdRec 1 (by decide)

/-- Exact value of `np.linalg.norm(a) ** 2` (sum of squares); the L2 norm
of `a` is zero iff `sumSq a = 0`. -/
def sumSq (a : List ℚ) : ℚ := (a.map (fun x => x * x)).sum

/-- Exact value of `np.dot(a, b)` for two equal-length 1-D arrays
(for unequal lengths `np.dot` raises before any value is produced). -/
def dotQ (a b : List ℚ) : ℚ := (List.zipWith (fun x y => x * y) a b).sum

/-- Outcome of `cosine_similarity` at numpy-float level: `raise` is the
`ValueError` thrown by `np.dot` on mismatched 1-D shapes; `nan` the IEEE
NaN produced by the division `0.0 / 0.0`; `val num denSq` a finite value
denoting the real number `num / √denSq`. -/
inductive NpResult : Type
  | raise
  | nan
  | val (num : ℚ) (denSq : ℚ)
deriving DecidableEq, Repr

/-- Function `cosine_similarity(a, b)` (advanced_main.py lines 295-298):
`np.dot(a, b) / (np.linalg.norm(a) * np.linalg.norm(b))`.
If the 1-D shapes differ, `np.dot` raises `ValueError`.  Otherwise, if
either norm is zero, the vector in question is the zero vector, so the
dot product is also zero and the division is `0.0 / 0.0` = NaN — numpy
emits a RuntimeWarning but RETURNS the NaN silently.  Otherwise the value
is `dot / (‖a‖·‖b‖)`, carried exactly as the pair
`(dot, sumSq a * sumSq b)` denoting `dot / √(sumSq a · sumSq b)`
(the model keeps the square of the denominator so that the definition
stays rational-valued and executable). -/
def cosine_similarity (a b : List ℚ) : NpResult :=
  if a.length ≠ b.length then NpResult.raise
  else if sumSq a = 0 ∨ sumSq b = 0 then NpResult.nan
  else NpResult.val (dotQ a b) (sumSq a * sumSq b)

theorem sumSq_nonneg (a : List ℚ) : 0 ≤ sumSq a := by
  induction a with
  | nil => simp [sumSq]
  | cons x xs ih =>
    simp only [sumSq, List.map_cons, List.sum_cons]
    simp only [sumSq] at ih
    nlinarith [mul_self_nonneg x, ih]

/-- Helper inequality for Cauchy-Schwarz:
`2·x·y·⟪a,b⟫ ≤ x²·‖b‖² + y²·‖a‖²`. -/
theorem two_mul_dot_le (a : List ℚ) : ∀ (b : List ℚ) (x y : ℚ),
    2 * x * y * dotQ a b ≤ x ^ 2 * sumSq b + y ^ 2 * sumSq a := by
  induction a with
  | nil =>
    intro b x y
    simp only [dotQ, List.zipWith_nil_left, List.sum_nil, mul_zero]
    nlinarith [sumSq_nonneg b, sq_nonneg x, sq_nonneg y, sumSq_nonneg ([] : List ℚ)]
  | cons p as ih =>
    intro b x y
    cases b with
    | nil =>
      simp only [dotQ, List.zipWith_nil_right, List.sum_nil, mul_zero]
      simpa [sumSq] using mul_nonneg (sq_nonneg y) (sumSq_nonneg (p :: as))
    | cons q bs =>
      have h := ih bs x y
      simp only [dotQ, List.zipWith_cons_cons, List.sum_cons, sumSq, List.map_cons,
        List.sum_cons] at h ⊢
      nlinarith [sq_nonneg (x * q - y * p), h]

/-- Discrete Cauchy-Schwarz over rational lists: `⟪a,b⟫² ≤ ‖a‖²·‖b‖²`. -/
theorem dotQ_sq_le (a : List ℚ) : ∀ b : List ℚ, (dotQ a b) ^ 2 ≤ sumSq a * sumSq b := by
  induction a with
  | nil =>
    intro b
    simp [dotQ, sumSq]
  | cons p as ih =>
    intro b
    cases b with
    | nil =>
      simp [dotQ, sumSq]
    | cons q bs =>
      have h1 := ih bs
      have h2 := two_mul_dot_le as bs p q
      simp only [dotQ, List.zipWith_cons_cons, List.sum_cons, sumSq, List.map_cons,
        List.sum_cons] at h1 h2 ⊢
      nlinarith [h1, h2, sq_nonneg (p * q)]

/-- Claim C5 counterexample: on a zero-norm input with matching
dimensionality, `cosine_similarity` does NOT return an explicit error or
a sentinel score — it silently returns the NaN of `0.0 / 0.0` (numpy
prints a RuntimeWarning but the value flows onward as a "score"),
refuting the claim that every zero-norm input yields a defined sentinel
value or an explicit error. -/
theorem C5_zero_norm_silent_nan :
    cosine_similarity [0] [1] = NpResult.nan ∧
      NpResult.nan ≠ NpResult.raise ∧ ∀ q dsq : ℚ, NpResult.nan ≠ NpResult.val q dsq := by
  refine ⟨by norm_num [cosine_similarity, sumSq], by simp, fun q dsq => by simp⟩

/-- Claim C5 amended: a dimensionality mismatch raises an explicit
`ValueError`; a zero-norm input silently evaluates to NaN (neither a
sentinel numeric score nor an error); for valid inputs (equal lengths,
both norms nonzero) the value `num / √denSq` lies in `[-1, 1]`. -/
theorem C5_cosine_amended (a b : List ℚ) :
    (a.length ≠ b.length → cosine_similarity a b = NpResult.raise) ∧
    (a.length = b.length → (sumSq a = 0 ∨ sumSq b = 0) →
      cosine_similarity a b = NpResult.nan) ∧
    (∀ n d, cosine_similarity a b = NpResult.val n d →
      ((n : ℝ) / Real.sqrt ((d : ℚ) : ℝ)) ∈ Set.Icc (-1 : ℝ) 1) := by
  refine ⟨fun h => ?_, fun h1 h2 => ?_, fun n d h => ?_⟩
  · rw [cosine_similarity, if_pos h]
  · rw [cosine_similarity, if_neg (by simpa using h1), if_pos h2]
  · rw [cosine_similarity] at h
    by_cases hl : a.length ≠ b.length
    · rw [if_pos hl] at h
      exact absurd h (by simp)
    · rw [if_neg hl] at h
      by_cases hz : sumSq a = 0 ∨ sumSq b = 0
      · rw [if_pos hz] at h
        exact absurd h (by simp)
      · rw [if_neg hz] at h
        injection h with hn hd
        push_neg at hz
        have ha : 0 < sumSq a := lt_of_le_of_ne (sumSq_nonneg a) (Ne.symm hz.1)
        have hb : 0 < sumSq b := lt_of_le_of_ne (sumSq_nonneg b) (Ne.symm hz.2)
        have hdpos : (0 : ℚ) < d := hd ▸ mul_pos ha hb
        have hcs : n ^ 2 ≤ d := by
          rw [← hn, ← hd]
          exact dotQ_sq_le a b
        have hDpos : (0 : ℝ) < ((d : ℚ) : ℝ) := by exact_mod_cast hdpos
        have hsq : ((n : ℚ) : ℝ) ^ 2 ≤ ((d : ℚ) : ℝ) := by exact_mod_cast hcs
        have habs : |((n : ℚ) : ℝ)| ≤ Real.sqrt ((d : ℚ) : ℝ) := by
          rw [← Real.sqrt_sq_eq_abs]
          exact Real.sqrt_le_sqrt hsq
        have hspos : 0 < Real.sqrt ((d : ℚ) : ℝ) := Real.sqrt_pos.2 hDpos
        rw [Set.mem_Icc]
        constructor
        · rw [neg_le]
          calc -(((n : ℚ) : ℝ) / Real.sqrt ((d : ℚ) : ℝ)) ≤
              |(-(((n : ℚ) : ℝ) / Real.sqrt ((d : ℚ) : ℝ)))| := le_abs_self _
            _ = |((n : ℚ) : ℝ)| / Real.sqrt ((d : ℚ) : ℝ) := by
                rw [abs_neg, abs_div, abs_of_nonneg (le_of_lt hspos)]
            _ ≤ 1 := (div_le_one hspos).2 habs
        · calc ((n : ℚ) : ℝ) / Real.sqrt ((d : ℚ) : ℝ) ≤
              |((n : ℚ) : ℝ) / Real.sqrt ((d : ℚ) : ℝ)| := le_abs_self _
            _ = |((n : ℚ) : ℝ)| / Real.sqrt ((d : ℚ) : ℝ) := by
                rw [abs_div, abs_of_nonneg (le_of_lt hspos)]
            _ ≤ 1 := (div_le_one hspos).2 habs

/-- Witness for the amended C5 at a concrete valid input. -/
theorem C5_cosine_amended_witness :
    cosine_similarity [(1 : ℚ)] [1] = NpResult.val 1 1 ∧
      (((1 : ℚ) : ℝ) / Real.sqrt (((1 : ℚ) : ℝ))) ∈ Set.Icc (-1 : ℝ) 1 :=
  ⟨by norm_num [cosine_similarity, sumSq, dotQ],
    (C5_cosine_amended [1] [1]).2.2 1 1 (by norm_num [cosine_similarity, sumSq, dotQ])⟩

/-- A file dict from the `files().list` call used by `check_drive_sync`
and `sync_pdfs` (`files(id, name, mimeType, createdTime, modifiedTime,
webViewLink)`): `id` and `name` are always present, other fields are read
with `.get` and may be absent. -/
structure RemoteFile : Type where
  id : String
  name : String
  mimeType : Option String
  createdTime : Option String
  modifiedTime : Option String
  webViewLink : Option String
deriving DecidableEq, Repr

/-- A record of `embeddings.json` as written by `sync_pdfs` and as read
by `check_drive_sync` (which indexes `doc["id"]` and `doc["name"]`
unconditionally): `id` and `name` are mandatory here, `modifiedTime`
optional (`.get("modifiedTime", "")`). -/
structure DocData : Type where
  id : String
  name : String
  mimeType : Option String
  createdTime : Option String
  modifiedTime : Option String
  webViewLink : Option String
  text : String
  embedding : List ℚ
deriving DecidableEq, Repr

/-- Value of `{f["id"]: f for f in drive_files}[i]`: a Python dict
comprehension keeps the LAST entry for a duplicated key. -/
def lastWithId (R : List RemoteFile) (i : String) : Option RemoteFile :=
  R.reverse.find? (fun f => f.id == i)

/-- Value of `{doc["id"]: doc for doc in docs}[i]` (last wins). -/
def lastDocWithId (L : List DocData) (i : String) : Option DocData :=
  L.reverse.find? (fun d => d.id == i)

/-- The set `set(drive_ids.keys())` of `check_drive_sync`. -/
def driveKeys (R : List RemoteFile) : Finset String := (R.map RemoteFile.id).toFinset

/-- The set `set(local_ids.keys())` of `check_drive_sync`. -/
def localKeys (L : List DocData) : Finset String := (L.map DocData.id).toFinset

/-- Set difference `missing_in_local = set(drive_ids.keys()) - set(local_ids.keys())`
(advanced_main.py line 182). -/
def missing_in_local (R : List RemoteFile) (L : List DocData) : Finset String :=
  driveKeys R \ localKeys L

/-- Set difference `extra_in_local = set(local_ids.keys()) - set(drive_ids.keys())`
(line 183). -/
def extra_in_local (R : List RemoteFile) (L : List DocData) : Finset String :=
  localKeys L \ driveKeys R

/-- The per-id condition of the `modified` loop (lines 186-189):
`drive_modified = drive_ids[i].get("modifiedTime", "")`, likewise for the
local record, then `if drive_modified and local_modified and
drive_modified > local_modified` — the empty-string default is falsy, so
an absent timestamp on either side blocks the classification; the
comparison is strict lexicographic string `>`. -/
def modifiedB (R : List RemoteFile) (L : List DocData) (i : String) : Bool :=
  let dm := ((lastWithId R i).bind RemoteFile.modifiedTime).getD ""
  let lm := ((lastDocWithId L i).bind DocData.modifiedTime).getD ""
  decide (dm ≠ "") && decide (lm ≠ "") && pyStrLt lm dm

/-- The set of ids collected by the `modified` loop, which iterates over
`set(drive_ids.keys()) & set(local_ids.keys())` (line 186); the loop
builds a Python list in nondeterministic set order, so its contents are
modelled as the `Finset` of collected ids. -/
def modifiedSet (R : List RemoteFile) (L : List DocData) : Finset String :=
  (driveKeys R ∩ localKeys L).filter (fun i => modifiedB R L i = true)

/-- Flag `is_synced = len(missing) == 0 and len(extra) == 0 and
len(modified) == 0` (line 197). -/
def is_synced (R : List RemoteFile) (L : List DocData) : Bool :=
  decide (missing_in_local R L = ∅) && decide (extra_in_local R L = ∅) &&
    decide (modifiedSet R L = ∅)

/-- Claim C2: the reconciliation check computes `missing` and `extra` as
pure set differences of the id sets (hence order-independent), `modified`
as the ids present on both sides whose remote timestamp is present,
non-empty, and strictly exceeds the (present, non-empty) local timestamp
lexically — absence on either side never classifies an id as modified —
and declares synced iff all three sets are empty. -/
theorem C2_reconcile_set_semantics (R : List RemoteFile) (L : List DocData) :
    (∀ i, i ∈ missing_in_local R L ↔
      (i ∈ R.map RemoteFile.id ∧ i ∉ L.map DocData.id)) ∧
    (∀ i, i ∈ extra_in_local R L ↔
      (i ∈ L.map DocData.id ∧ i ∉ R.map RemoteFile.id)) ∧
    (∀ (R2 : List RemoteFile) (L2 : List DocData), List.Perm R R2 → List.Perm L L2 →
      missing_in_local R L = missing_in_local R2 L2 ∧
        extra_in_local R L = extra_in_local R2 L2) ∧
    (∀ i, i ∈ modifiedSet R L ↔
      (i ∈ R.map RemoteFile.id ∧ i ∈ L.map DocData.id ∧
        ∃ dm lm, (lastWithId R i).bind RemoteFile.modifiedTime = some dm ∧
          (lastDocWithId L i).bind DocData.modifiedTime = some lm ∧
          dm ≠ "" ∧ lm ≠ "" ∧ lm < dm)) ∧
    (∀ i, ((lastWithId R i).bind RemoteFile.modifiedTime = none ∨
        (lastDocWithId L i).bind DocData.modifiedTime = none) → i ∉ modifiedSet R L) ∧
    (is_synced R L = true ↔
      (missing_in_local R L = ∅ ∧ extra_in_local R L = ∅ ∧ modifiedSet R L = ∅)) := by
  have hmod : ∀ i, i ∈ modifiedSet R L ↔
      (i ∈ R.map RemoteFile.id ∧ i ∈ L.map DocData.id ∧
        ∃ dm lm, (lastWithId R i).bind RemoteFile.modifiedTime = some dm ∧
          (lastDocWithId L i).bind DocData.modifiedTime = some lm ∧
          dm ≠ "" ∧ lm ≠ "" ∧ lm < dm) := by
    intro i
    rw [modifiedSet, Finset.mem_filter, Finset.mem_inter]
    simp only [driveKeys, localKeys, List.mem_toFinset]
    constructor
    · rintro ⟨⟨hr, hl⟩, hb⟩
      refine ⟨hr, hl, ?_⟩
      rcases hdm : (lastWithId R i).bind RemoteFile.modifiedTime with _ | dm
      · rw [modifiedB, hdm] at hb
        simp at hb
      · rcases hlm : (lastDocWithId L i).bind DocData.modifiedTime with _ | lm
        · rw [modifiedB, hdm, hlm] at hb
          simp at hb
        · rw [modifiedB, hdm, hlm] at hb
          simp only [Option.getD_some, Bool.and_eq_true, decide_eq_true_eq] at hb
          exact ⟨dm, lm, rfl, rfl, hb.1.1, hb.1.2, (pyStrLt_iff_lt lm dm).1 hb.2⟩
    · rintro ⟨hr, hl, dm, lm, hdm, hlm, h1, h2, h3⟩
      refine ⟨⟨hr, hl⟩, ?_⟩
      rw [modifiedB, hdm, hlm]
      simp only [Option.getD_some, Bool.and_eq_true, decide_eq_true_eq]
      exact ⟨⟨h1, h2⟩, (pyStrLt_iff_lt lm dm).2 h3⟩
  refine ⟨?_, ?_, ?_, hmod, ?_, ?_⟩
  · intro i
    simp [missing_in_local, driveKeys, localKeys, Finset.mem_sdiff, List.mem_toFinset]
  · intro i
    simp [extra_in_local, driveKeys, localKeys, Finset.mem_sdiff, List.mem_toFinset]
  · intro R2 L2 hR hL
    have h1 : driveKeys R = driveKeys R2 :=
      List.toFinset_eq_of_perm _ _ (hR.map RemoteFile.id)
    have h2 : localKeys L = localKeys L2 :=
      List.toFinset_eq_of_perm _ _ (hL.map DocData.id)
    exact ⟨by rw [missing_in_local, missing_in_local, h1, h2],
      by rw [extra_in_local, extra_in_local, h1, h2]⟩
  · intro i hnone hmem
    rcases (hmod i).1 hmem with ⟨_, _, dm, lm, hdm, hlm, _⟩
    rcases hnone with h | h
    · rw [h] at hdm
      exact Option.noConfusion hdm
    · rw [h] at hlm
      exact Option.noConfusion hlm
  · rw [is_synced]
    simp only [Bool.and_eq_true, decide_eq_true_eq]
    tauto

/-- Remote listing fixture for the C2 witness. -/
def remoteW : List RemoteFile :=
  [{ id := "r1", name := "a", mimeType := none, createdTime := none,
     modifiedTime := some "2024-02-01T00:00:00Z", webViewLink := none }]

/-- Local store fixture for the C2 witness (empty timestamps). -/
def localW : List DocData :=
  [{ id := "l1", name := "b", mimeType := none, createdTime := none,
     modifiedTime := none, webViewLink := none, text := "", embedding := [1] }]

/-- Witness for C2: the absent-timestamp clause and the permutation
invariance applied at concrete inputs. -/
theorem C2_reconcile_set_semantics_witness :
    ("l1" ∉ modifiedSet remoteW localW) ∧
      missing_in_local remoteW localW = missing_in_local remoteW localW :=
  ⟨(C2_reconcile_set_semantics remoteW localW).2.2.2.2.1 "l1" (Or.inr (by decide)),
    ((C2_reconcile_set_semantics remoteW localW).2.2.1 remoteW localW
      (List.Perm.refl _) (List.Perm.refl _)).1⟩

/-- Python `str.strip()` on both ends (kernel-reducible model). -/
def pyStrip (s : String) : String :=
  ⟨((s.data.dropWhile Char.isWhitespace).reverse.dropWhile Char.isWhitespace).reverse⟩

/-- Lookup in a Python dict represented as an ordered association list
(first matching key; the representation keeps keys unique). -/
def dictGet : List (String × DocData) → String → Option DocData
  | [], _ => none
  | (k, v) :: rest, i => if k = i then some v else dictGet rest i

/-- Python dict assignment `m[k] = v`: replaces the value in place if the
key exists (keeping its position — Python dicts preserve first-insertion
order on update), else appends. -/
def dictSet : List (String × DocData) → String → DocData → List (String × DocData)
  | [], k, v => [(k, v)]
  | (k0, v0) :: rest, k, v =>
    if k0 = k then (k, v) :: rest else (k0, v0) :: dictSet rest k v

/-- Dict `existing_map` built as the comprehension over `existing`
(pdf_extractor.py line 69): left-to-right insertion, later duplicate ids
override in place. -/
def buildMap (existing : List DocData) : List (String × DocData) :=
  existing.foldl (fun m d => dictSet m d.id d) []

/-- The per-file condition of the `to_process` selection (pdf_extractor.py
lines 77-88): a remote pdf is processed if its id is not yet indexed, or
if both its `modifiedTime` and the indexed record's `modifiedTime` are
present and truthy (non-empty) and the remote one is strictly lexically
greater. -/
def needsProcess (em : List (String × DocData)) (pdf : RemoteFile) : Bool :=
  match dictGet em pdf.id with
  | none => true
  | some ex =>
    match pdf.modifiedTime, ex.modifiedTime with
    | some rm, some lm => decide (rm ≠ "") && decide (lm ≠ "") && pyStrLt lm rm
    | _, _ => false

/-- The `to_process` list (pdf_extractor.py lines 77-88). -/
def to_process (files : List RemoteFile) (em : List (String × DocData)) : List RemoteFile :=
  files.filter (needsProcess em)

/-- Processing of one `to_process` entry (pdf_extractor.py lines 95-146):
download (fallible — a failure is caught by the outer except and the
document skipped), extract text (a failure is caught locally and replaced
by the error sentinel string), substitute the empty-content sentinel if
the stripped text is empty, embed the first 20000 characters (fallible —
caught by the outer except, document skipped), and build `doc_data`
keeping the first 15000 characters of the text and the remote metadata
fields verbatim. -/
def processOne {β : Type} (download : RemoteFile → Except String β)
    (extract : β → Except String String) (embed : String → Except String (List ℚ))
    (f : RemoteFile) : Except String DocData :=
  match download f with
  | Except.error e => Except.error e
  | Except.ok bytes =>
    let text0 := match extract bytes with
      | Except.error _ => "[Eroare la citirea PDF-ului]"
      | Except.ok t => t
    let text1 := if pyStrip text0 = "" then "[PDF gol sau fara text selectabil]" else text0
    match embed (text1.take 20000) with
    | Except.error e => Except.error e
    | Except.ok vec =>
      Except.ok
        { id := f.id, name := f.name, mimeType := f.mimeType, createdTime := f.createdTime,
          modifiedTime := f.modifiedTime, webViewLink := f.webViewLink,
          text := text1.take 15000, embedding := vec }

/-- The processing loop (lines 95-151): each selected file is processed;
on failure the document is skipped (`continue`), on success
`existing_map[file_id] = doc_data`. -/
def runProcess (proc : RemoteFile → Except String DocData) :
    List RemoteFile → List (String × DocData) → List (String × DocData)
  | [], em => em
  | f :: rest, em =>
    match proc f with
    | Except.error _ => runProcess proc rest em
    | Except.ok d => runProcess proc rest (dictSet em f.id d)

/-- Observable side effects of one `sync_pdfs` run: one download per
`to_process` entry (line 102, before the per-document try can fail), and
the single unconditional save of the whole mapping (lines 156-158). -/
inductive SyncEvent : Type
  | fetch (id : String)
  | write (data : List DocData)
deriving DecidableEq, Repr

/-- The reconcile-and-reindex core of `sync_pdfs` (pdf_extractor.py lines
61-161): build `existing_map` from the loaded store, select `to_process`,
process the selected documents, then unconditionally persist
`list(existing_map.values())`.  Returns the persisted record list and the
event trace (fetches in loop order, then the one write). -/
def sync_pdfs_core (proc : RemoteFile → Except String DocData)
    (files : List RemoteFile) (existing : List DocData) :
    List DocData × List SyncEvent :=
  let em0 := buildMap existing
  let tp := to_process files em0
  let em1 := runProcess proc tp em0
  let allData := em1.map Prod.snd
  (allData, tp.map (fun f => SyncEvent.fetch f.id) ++ [SyncEvent.write allData])

theorem dictGet_dictSet_self (m : List (String × DocData)) (k : String) (v : DocData) :
    dictGet (dictSet m k v) k = some v := by
  induction m with
  | nil => simp [dictSet, dictGet]
  | cons p rest ih =>
    obtain ⟨k0, v0⟩ := p
    by_cases h : k0 = k
    · simp [dictSet, dictGet, h]
    · simp [dictSet, dictGet, h, ih]

theorem dictGet_dictSet_ne (m : List (String × DocData)) (k i : String) (v : DocData)
    (h : k ≠ i) : dictGet (dictSet m k v) i = dictGet m i := by
  induction m with
  | nil => simp [dictSet, dictGet, h]
  | cons p rest ih =>
    obtain ⟨k0, v0⟩ := p
    rw [dictSet]
    by_cases h0 : k0 = k
    · rw [if_pos h0]
      subst h0
      rw [dictGet, dictGet, if_neg h, if_neg h]
    · rw [if_neg h0, dictGet, dictGet]
      by_cases h1 : k0 = i
      · rw [if_pos h1, if_pos h1]
      · rw [if_neg h1, if_neg h1, ih]

theorem mem_keys_dictSet (m : List (String × DocData)) (k i : String) (v : DocData) :
    i ∈ (dictSet m k v).map Prod.fst ↔ i ∈ m.map Prod.fst ∨ i = k := by
  induction m with
  | nil => simp [dictSet]
  | cons p rest ih =>
    obtain ⟨k0, v0⟩ := p
    rw [dictSet]
    by_cases h : k0 = k
    · rw [if_pos h]
      subst h
      simp only [List.map_cons, List.mem_cons]
      tauto
    · rw [if_neg h]
      simp only [List.map_cons, List.mem_cons, ih]
      tauto

theorem keys_nodup_dictSet (m : List (String × DocData)) (k : String) (v : DocData)
    (h : (m.map Prod.fst).Nodup) : ((dictSet m k v).map Prod.fst).Nodup := by
  induction m with
  | nil => simp [dictSet]
  | cons p rest ih =>
    obtain ⟨k0, v0⟩ := p
    simp only [List.map_cons, List.nodup_cons] at h
    rw [dictSet]
    by_cases h0 : k0 = k
    · rw [if_pos h0]
      subst h0
      simp only [List.map_cons, List.nodup_cons]
      exact h
    · rw [if_neg h0]
      simp only [List.map_cons, List.nodup_cons]
      refine ⟨fun hm => ?_, ih h.2⟩
      rcases (mem_keys_dictSet rest k k0 v).1 hm with hm | hm
      · exact h.1 hm
      · exact h0 hm

/-- Key/value consistency of the association-list dicts built by
`sync_pdfs`: every entry is keyed by its record's id. -/
def Consistent (m : List (String × DocData)) : Prop := ∀ p ∈ m, (Prod.snd p).id = p.1

theorem consistent_dictSet (m : List (String × DocData)) (k : String) (v : DocData)
    (hm : Consistent m) (hv : v.id = k) : Consistent (dictSet m k v) := by
  induction m with
  | nil =>
    intro p hp
    simp only [dictSet, List.mem_singleton] at hp
    simp [hp, hv]
  | cons q rest ih =>
    obtain ⟨k0, v0⟩ := q
    have hq : Consistent rest := fun p hp => hm p (List.mem_cons_of_mem _ hp)
    by_cases h0 : k0 = k
    · subst h0
      intro p hp
      rw [dictSet, if_pos rfl] at hp
      rcases List.mem_cons.1 hp with rfl | hp
      · exact hv
      · exact hm p (List.mem_cons_of_mem _ hp)
    · intro p hp
      rw [dictSet, if_neg h0] at hp
      rcases List.mem_cons.1 hp with rfl | hp
      · exact hm _ (List.mem_cons_self _ _)
      · exact ih hq p hp

theorem dictGet_mem_values (m : List (String × DocData)) (i : String) (d : DocData)
    (h : dictGet m i = some d) : d ∈ m.map Prod.snd := by
  induction m with
  | nil => exact absurd h (by simp [dictGet])
  | cons p rest ih =>
    obtain ⟨k0, v0⟩ := p
    rw [dictGet] at h
    by_cases h0 : k0 = i
    · rw [if_pos h0] at h
      injection h with h
      simp [h]
    · rw [if_neg h0] at h
      simp only [List.map_cons, List.mem_cons]
      exact Or.inr (ih h)

theorem runProcess_frame (proc : RemoteFile → Except String DocData)
    (tp : List RemoteFile) (em : List (String × DocData)) (i : String)
    (h : i ∉ tp.map RemoteFile.id) :
    dictGet (runProcess proc tp em) i = dictGet em i := by
  induction tp generalizing em with
  | nil => rfl
  | cons f rest ih =>
    simp only [List.map_cons, List.mem_cons, not_or] at h
    rw [runProcess]
    cases hpf : proc f with
    | error e => exact ih em h.2
    | ok d =>
      rw [ih (dictSet em f.id d) h.2]
      exact dictGet_dictSet_ne em f.id i d (fun he => h.1 he.symm)

theorem runProcess_keys_nodup (proc : RemoteFile → Except String DocData)
    (tp : List RemoteFile) (em : List (String × DocData))
    (h : (em.map Prod.fst).Nodup) :
    ((runProcess proc tp em).map Prod.fst).Nodup := by
  induction tp generalizing em with
  | nil => exact h
  | cons f rest ih =>
    rw [runProcess]
    cases hpf : proc f with
    | error e => exact ih em h
    | ok d => exact ih (dictSet em f.id d) (keys_nodup_dictSet em f.id d h)

theorem runProcess_consistent (proc : RemoteFile → Except String DocData)
    (hid : ∀ f d, proc f = Except.ok d → d.id = f.id)
    (tp : List RemoteFile) (em : List (String × DocData)) (h : Consistent em) :
    Consistent (runProcess proc tp em) := by
  induction tp generalizing em with
  | nil => exact h
  | cons f rest ih =>
    rw [runProcess]
    cases hpf : proc f with
    | error e => exact ih em h
    | ok d => exact ih (dictSet em f.id d) (consistent_dictSet em f.id d h (hid f d hpf))

theorem runProcess_lookup_processed (proc : RemoteFile → Except String DocData)
    (tp : List RemoteFile) (hnd : (tp.map RemoteFile.id).Nodup) :
    ∀ em, ∀ f ∈ tp, ∀ d, proc f = Except.ok d →
      dictGet (runProcess proc tp em) f.id = some d := by
  induction tp with
  | nil => intro em f hf; exact absurd hf (List.not_mem_nil f)
  | cons g rest ih =>
    intro em f hf d hd
    simp only [List.map_cons, List.nodup_cons] at hnd
    rcases List.mem_cons.1 hf with rfl | hf
    · rw [runProcess, hd, runProcess_frame proc rest _ f.id hnd.1]
      exact dictGet_dictSet_self em f.id d
    · rw [runProcess]
      cases hpg : proc g with
      | error e => exact ih hnd.2 em f hf d hd
      | ok dg => exact ih hnd.2 (dictSet em g.id dg) f hf d hd

theorem processOne_ok {β : Type} (download : RemoteFile → Except String β)
    (extract : β → Except String String) (embed : String → Except String (List ℚ))
    (f : RemoteFile) (d : DocData)
    (h : processOne download extract embed f = Except.ok d) :
    d.id = f.id ∧ d.modifiedTime = f.modifiedTime := by
  rw [processOne] at h
  cases hdl : download f with
  | error e =>
    rw [hdl] at h
    exact absurd h (by simp)
  | ok bytes =>
    rw [hdl] at h
    simp only at h
    cases hem : embed ((if pyStrip (match extract bytes with
        | Except.error _ => "[Eroare la citirea PDF-ului]"
        | Except.ok t => t) = "" then "[PDF gol sau fara text selectabil]"
          else (match extract bytes with
            | Except.error _ => "[Eroare la citirea PDF-ului]"
            | Except.ok t => t)).take 20000) with
    | error e =>
      rw [hem] at h
      exact absurd h (by simp)
    | ok vec =>
      rw [hem] at h
      injection h with h
      rw [← h]
      exact ⟨rfl, rfl⟩

theorem foldl_dictSet_keys_nodup (l : List DocData) :
    ∀ acc : List (String × DocData), (acc.map Prod.fst).Nodup →
      ((l.foldl (fun m d => dictSet m d.id d) acc).map Prod.fst).Nodup := by
  induction l with
  | nil => intro acc h; exact h
  | cons d rest ih =>
    intro acc h
    exact ih (dictSet acc d.id d) (keys_nodup_dictSet acc d.id d h)

theorem buildMap_keys_nodup (existing : List DocData) :
    ((buildMap existing).map Prod.fst).Nodup :=
  foldl_dictSet_keys_nodup existing [] (by simp)

theorem foldl_dictSet_consistent (l : List DocData) :
    ∀ acc : List (String × DocData), Consistent acc →
      Consistent (l.foldl (fun m d => dictSet m d.id d) acc) := by
  induction l with
  | nil => intro acc h; exact h
  | cons d rest ih =>
    intro acc h
    exact ih (dictSet acc d.id d) (consistent_dictSet acc d.id d h rfl)

theorem buildMap_consistent (existing : List DocData) : Consistent (buildMap existing) :=
  foldl_dictSet_consistent existing [] (by intro p hp; exact absurd hp (List.not_mem_nil p))

theorem foldl_dictSet_cons (l : List DocData) (k : String) (v : DocData) :
    ∀ m : List (String × DocData), (∀ d ∈ l, d.id ≠ k) →
      l.foldl (fun m d => dictSet m d.id d) ((k, v) :: m) =
        (k, v) :: l.foldl (fun m d => dictSet m d.id d) m := by
  induction l with
  | nil => intro m _; rfl
  | cons d rest ih =>
    intro m h
    have hdk : ¬(k = d.id) := fun he => h d (List.mem_cons_self d rest) he.symm
    calc (d :: rest).foldl (fun m d => dictSet m d.id d) ((k, v) :: m) =
        rest.foldl (fun m d => dictSet m d.id d) (dictSet ((k, v) :: m) d.id d) := rfl
      _ = rest.foldl (fun m d => dictSet m d.id d) ((k, v) :: dictSet m d.id d) := by
          rw [dictSet, if_neg hdk]
      _ = (k, v) :: rest.foldl (fun m d => dictSet m d.id d) (dictSet m d.id d) :=
          ih (dictSet m d.id d) (fun e he => h e (List.mem_cons_of_mem d he))
      _ = (k, v) :: (d :: rest).foldl (fun m d => dictSet m d.id d) m := rfl

theorem buildMap_roundtrip : ∀ m : List (String × DocData),
    (m.map Prod.fst).Nodup → Consistent m → buildMap (m.map Prod.snd) = m := by
  intro m
  induction m with
  | nil => intro _ _; rfl
  | cons p rest ih =>
    obtain ⟨k, v⟩ := p
    intro hnd hcons
    simp only [List.map_cons, List.nodup_cons] at hnd
    have hvk : v.id = k := hcons (k, v) (List.mem_cons_self _ _)
    have hrest : ∀ d ∈ rest.map Prod.snd, d.id ≠ k := by
      intro d hd
      obtain ⟨q, hq, rfl⟩ := List.mem_map.1 hd
      rw [hcons q (List.mem_cons_of_mem _ hq)]
      intro he
      exact hnd.1 (he ▸ List.mem_map_of_mem Prod.fst hq)
    calc buildMap ((v :: rest.map Prod.snd : List DocData)) =
        (rest.map Prod.snd).foldl (fun m d => dictSet m d.id d) [(v.id, v)] := rfl
      _ = (rest.map Prod.snd).foldl (fun m d => dictSet m d.id d) [(k, v)] := by rw [hvk]
      _ = (k, v) :: (rest.map Prod.snd).foldl (fun m d => dictSet m d.id d) [] :=
          foldl_dictSet_cons (rest.map Prod.snd) k v [] hrest
      _ = (k, v) :: buildMap (rest.map Prod.snd) := rfl
      _ = (k, v) :: rest := by rw [ih hnd.2 (fun q hq => hcons q (List.mem_cons_of_mem _ hq))]

/-- Claim C9: records whose id is not selected by the `to_process` pass
(the missing/modified selection) — in particular all `extra` records,
whose ids do not occur in the remote listing at all — are neither removed
nor altered: their mapping entry is unchanged and the very same record
appears in the persisted output list. -/
theorem C9_untouched_records_preserved (proc : RemoteFile → Except String DocData)
    (files : List RemoteFile) (existing : List DocData) (i : String) :
    (i ∉ files.map RemoteFile.id →
      i ∉ (to_process files (buildMap existing)).map RemoteFile.id) ∧
    (i ∉ (to_process files (buildMap existing)).map RemoteFile.id →
      dictGet (runProcess proc (to_process files (buildMap existing)) (buildMap existing)) i =
          dictGet (buildMap existing) i ∧
        (∀ d, dictGet (buildMap existing) i = some d →
          d ∈ (sync_pdfs_core proc files existing).1)) := by
  constructor
  · intro hnf hmem
    obtain ⟨f, hf, rfl⟩ := List.mem_map.1 hmem
    exact hnf (List.mem_map_of_mem RemoteFile.id (List.mem_of_mem_filter hf))
  · intro h
    have hframe := runProcess_frame proc (to_process files (buildMap existing))
      (buildMap existing) i h
    refine ⟨hframe, fun d hd => ?_⟩
    exact dictGet_mem_values _ i d (hframe.trans hd)

/-- Remote file fixture (new to the local store). -/
def rfNew : RemoteFile :=
  { id := "f1", name := "f", mimeType := none, createdTime := none,
    modifiedTime := some "2024-01-01T00:00:00Z", webViewLink := none }

/-- Local record fixture whose id does not occur remotely (an `extra`
record). -/
def dwKeep : DocData :=
  { id := "keep", name := "k", mimeType := none, createdTime := none,
    modifiedTime := none, webViewLink := none, text := "", embedding := [1] }

/-- Collaborator fixture: every download fails. -/
def procFail : RemoteFile → Except String DocData := fun _ => Except.error "down"

/-- Witness for C9: the extra record `dwKeep` survives a concrete sync
run untouched. -/
theorem C9_untouched_records_preserved_witness :
    dictGet (runProcess procFail (to_process [rfNew] (buildMap [dwKeep]))
        (buildMap [dwKeep])) "keep" = dictGet (buildMap [dwKeep]) "keep" ∧
      dwKeep ∈ (sync_pdfs_core procFail [rfNew] [dwKeep]).1 := by
  have h := (C9_untouched_records_preserved procFail [rfNew] [dwKeep] "keep").2 (by decide)
  exact ⟨h.1, h.2 dwKeep (by decide)⟩

/-- State of a file on disk as seen by a Python loader: absent (`open`
raises `FileNotFoundError` / `os.path.exists` is false), present but not
valid JSON (`json.load` raises `JSONDecodeError`), or well-formed with a
payload. -/
inductive FileState (α : Type) : Type
  | absent
  | malformed
  | wellFormed (val : α)
deriving DecidableEq, Repr

/-- Function `load_embeddings` (advanced_main.py lines 42-50, run at import time on
line 52): `json.load` inside a `try` that catches ONLY
`FileNotFoundError` (absent file → `docs = []`); a malformed file raises
`json.JSONDecodeError`, which is not caught and propagates. -/
def load_embeddings (st : FileState (List StoredDoc)) : Except String (List StoredDoc) :=
  match st with
  | FileState.absent => Except.ok []
  | FileState.malformed => Except.error "json.decoder.JSONDecodeError"
  | FileState.wellFormed ds => Except.ok ds

/-- The existing-store load of `sync_pdfs` (pdf_extractor.py lines
61-74): absent file → empty list; `JSONDecodeError` caught → empty list;
otherwise the parsed records. -/
def sync_load_existing (st : FileState (List DocData)) : List DocData :=
  match st with
  | FileState.absent => []
  | FileState.malformed => []
  | FileState.wellFormed ds => ds

/-- Claim C7 counterexample: a corrupt (malformed) store file is NOT
treated as an empty store by `load_embeddings` — the parse error
propagates (fatally, since `load_embeddings()` runs at module import). -/
theorem C7_malformed_fatal_in_load_embeddings :
    load_embeddings FileState.malformed = Except.error "json.decoder.JSONDecodeError" ∧
      ∀ ds, load_embeddings FileState.malformed ≠ Except.ok ds := by
  exact ⟨rfl, fun ds h => Except.noConfusion h⟩

/-- Claim C7 amended: an absent store file yields an empty store (not an
error) in both loaders, and `sync_pdfs` also treats a malformed file as
an empty store; but `load_embeddings` catches only `FileNotFoundError`,
so a malformed file raises there. -/
theorem C7_load_amended :
    load_embeddings FileState.absent = Except.ok [] ∧
    (∀ ds, load_embeddings (FileState.wellFormed ds) = Except.ok ds) ∧
    sync_load_existing FileState.absent = [] ∧
    sync_load_existing FileState.malformed = [] ∧
    (∀ ds, sync_load_existing (FileState.wellFormed ds) = ds) ∧
    load_embeddings FileState.malformed = Except.error "json.decoder.JSONDecodeError" :=
  ⟨rfl, fun _ => rfl, rfl, rfl, fun _ => rfl, rfl⟩

/-- Effect of `open(embeddings_file, "w")` (pdf_extractor.py line 157):
opening in write mode truncates the file immediately; whatever was
persisted before is gone from disk from this point on. -/
def openTruncate (_prior : List DocData) : List DocData := []

/-- The save step of `sync_pdfs` (lines 156-161): the file is opened in
`"w"` mode (truncating the prior content in place — there is no temporary
file and no atomic swap) and `json.dump` streams the record list into it.
`failAfter none` models a completed dump; `failAfter (some k)` a crash
after `k` records have been streamed, leaving exactly that prefix on
disk. -/
def sync_pdfs_save (prior newData : List DocData) (failAfter : Option Nat) : List DocData :=
  match failAfter with
  | none => openTruncate prior ++ newData
  | some k => openTruncate prior ++ newData.take k

/-- Claim C6 counterexample: a save that fails immediately after opening
leaves an empty file — the previously persisted record `dwKeep` is NOT
intact. -/
theorem C6_partial_save_destroys_prior :
    sync_pdfs_save [dwKeep] [dwKeep, dwKeep] (some 0) = [] ∧
      ([] : List DocData) ≠ [dwKeep] :=
  ⟨rfl, by simp⟩

/-- Claim C6 amended: the save is not atomic — `open("w")` truncates the
prior content in place, so an interrupted dump leaves exactly the first
`k` streamed records of the NEW serialization; the previous content
survives only in the coincidental case where it equals that prefix. -/
theorem C6_save_not_atomic (prior newData : List DocData) (k : Nat) :
    sync_pdfs_save prior newData none = newData ∧
    sync_pdfs_save prior newData (some k) = newData.take k ∧
    (prior ≠ newData.take k → sync_pdfs_save prior newData (some k) ≠ prior) := by
  refine ⟨rfl, rfl, fun h he => h ?_⟩
  rw [← he]
  rfl

/-- Witness for the amended C6 at a concrete input. -/
theorem C6_save_not_atomic_witness :
    [dwKeep] ≠ ([] : List DocData).take 0 ∧
      sync_pdfs_save [dwKeep] [] (some 0) ≠ [dwKeep] :=
  ⟨by simp, (C6_save_not_atomic [dwKeep] [] 0).2.2 (by simp)⟩

theorem sync_pdfs_core_eq (proc : RemoteFile → Except String DocData)
    (files : List RemoteFile) (existing : List DocData) :
    sync_pdfs_core proc files existing =
      ((runProcess proc (to_process files (buildMap existing)) (buildMap existing)).map
          Prod.snd,
        (to_process files (buildMap existing)).map (fun f => SyncEvent.fetch f.id) ++
          [SyncEvent.write ((runProcess proc (to_process files (buildMap existing))
            (buildMap existing)).map Prod.snd)]) := rfl

/-- After a fully successful run, every remote file id is indexed with
the file's own `modifiedTime`, so `needsProcess` rejects every file. -/
theorem needsProcess_false_after_run {β : Type} (download : RemoteFile → Except String β)
    (extract : β → Except String String) (embed : String → Except String (List ℚ))
    (files : List RemoteFile) (existing : List DocData)
    (hnodup : (files.map RemoteFile.id).Nodup)
    (hsucc : ∀ f ∈ to_process files (buildMap existing),
      ∃ d, processOne download extract embed f = Except.ok d) :
    ∀ f ∈ files, needsProcess
      (runProcess (processOne download extract embed)
        (to_process files (buildMap existing)) (buildMap existing)) f = false := by
  intro f hf
  have htpnd : ((to_process files (buildMap existing)).map RemoteFile.id).Nodup :=
    List.Nodup.sublist (List.Sublist.map RemoteFile.id (List.filter_sublist files)) hnodup
  by_cases hmem : f ∈ to_process files (buildMap existing)
  · obtain ⟨d, hd⟩ := hsucc f hmem
    have hlook := runProcess_lookup_processed (processOne download extract embed)
      (to_process files (buildMap existing)) htpnd (buildMap existing) f hmem d hd
    have hmtd := (processOne_ok download extract embed f d hd).2
    rw [needsProcess, hlook]
    show (match f.modifiedTime, d.modifiedTime with
      | some rm, some lm => decide (rm ≠ "") && decide (lm ≠ "") && pyStrLt lm rm
      | _, _ => false) = false
    rw [hmtd]
    cases f.modifiedTime with
    | none => rfl
    | some rm => simp [pyStrLt_irrefl]
  · have hfid : f.id ∉ (to_process files (buildMap existing)).map RemoteFile.id := by
      intro hmemid
      obtain ⟨g, hg, hgid⟩ := List.mem_map.1 hmemid
      have hgf : g = f :=
        List.inj_on_of_nodup_map hnodup (List.mem_of_mem_filter hg) hf hgid
      exact hmem (hgf ▸ hg)
    have hnp : needsProcess (buildMap existing) f = false := by
      by_contra h
      exact hmem (List.mem_filter.2 ⟨hf, eq_true_of_ne_false h⟩)
    rw [needsProcess, runProcess_frame _ _ _ _ hfid]
    rw [needsProcess] at hnp
    exact hnp

/-- Claim C8 amended: running `sync_pdfs` twice with no remote change in
between (same listing, no processing failures on the first run, remote
ids unique) performs zero document fetches on the second run and leaves
the persisted store byte-for-byte identical — but the second run does NOT
perform zero writes: it unconditionally re-saves the (identical) store,
producing exactly one write event. -/
theorem C8_second_run_idempotent_but_writes {β : Type}
    (download : RemoteFile → Except String β) (extract : β → Except String String)
    (embed : String → Except String (List ℚ)) (files : List RemoteFile)
    (existing : List DocData)
    (hnodup : (files.map RemoteFile.id).Nodup)
    (hsucc : ∀ f ∈ to_process files (buildMap existing),
      ∃ d, processOne download extract embed f = Except.ok d) :
    (sync_pdfs_core (processOne download extract embed) files
        (sync_pdfs_core (processOne download extract embed) files existing).1).1 =
      (sync_pdfs_core (processOne download extract embed) files existing).1 ∧
    (sync_pdfs_core (processOne download extract embed) files
        (sync_pdfs_core (processOne download extract embed) files existing).1).2 =
      [SyncEvent.write (sync_pdfs_core (processOne download extract embed) files existing).1] ∧
    ∀ i, SyncEvent.fetch i ∉
      (sync_pdfs_core (processOne download extract embed) files
        (sync_pdfs_core (processOne download extract embed) files existing).1).2 := by
  have hid : ∀ f d, processOne download extract embed f = Except.ok d → d.id = f.id :=
    fun f d h => (processOne_ok download extract embed f d h).1
  have hnd1 : ((runProcess (processOne download extract embed)
      (to_process files (buildMap existing)) (buildMap existing)).map Prod.fst).Nodup :=
    runProcess_keys_nodup _ _ _ (buildMap_keys_nodup existing)
  have hcons1 : Consistent (runProcess (processOne download extract embed)
      (to_process files (buildMap existing)) (buildMap existing)) :=
    runProcess_consistent _ hid _ _ (buildMap_consistent existing)
  have hround : buildMap ((runProcess (processOne download extract embed)
      (to_process files (buildMap existing)) (buildMap existing)).map Prod.snd) =
        runProcess (processOne download extract embed)
          (to_process files (buildMap existing)) (buildMap existing) :=
    buildMap_roundtrip _ hnd1 hcons1
  have htp2 : to_process files (runProcess (processOne download extract embed)
      (to_process files (buildMap existing)) (buildMap existing)) = [] := by
    rw [to_process, List.filter_eq_nil_iff]
    intro f hf
    rw [needsProcess_false_after_run download extract embed files existing hnodup hsucc f hf]
    simp
  have hrun1 : (sync_pdfs_core (processOne download extract embed) files existing).1 =
      (runProcess (processOne download extract embed)
        (to_process files (buildMap existing)) (buildMap existing)).map Prod.snd := rfl
  rw [hrun1, sync_pdfs_core_eq, hround, htp2]
  refine ⟨rfl, rfl, fun i hmem => ?_⟩
  simp only [List.map_nil, List.nil_append, List.mem_singleton] at hmem
  exact SyncEvent.noConfusion hmem

/-- Remote file fixture already indexed with an identical timestamp. -/
def rfSynced : RemoteFile :=
  { id := "f1", name := "f", mimeType := none, createdTime := none,
    modifiedTime := some "2024-01-01T00:00:00Z", webViewLink := none }

/-- The matching indexed record (same id, same timestamp). -/
def dwSynced : DocData :=
  { id := "f1", name := "f", mimeType := none, createdTime := none,
    modifiedTime := some "2024-01-01T00:00:00Z", webViewLink := none,
    text := "t", embedding := [1] }

/-- Claim C8 counterexample: a `sync_pdfs` run over an already-synced
store (empty `to_process`, zero fetches) still performs a write — the
save of `list(existing_map.values())` is unconditional — refuting the
"performs no writes" part of the claim. -/
theorem C8_synced_run_still_writes :
    (sync_pdfs_core procFail [rfSynced] [dwSynced]).2 = [SyncEvent.write [dwSynced]] ∧
      (sync_pdfs_core procFail [rfSynced] [dwSynced]).2 ≠ [] := by
  refine ⟨by decide, ?_⟩
  rw [(by decide : (sync_pdfs_core procFail [rfSynced] [dwSynced]).2 =
    [SyncEvent.write [dwSynced]])]
  simp

/-- Concrete always-succeeding collaborators for the C8 witness. -/
def dlU : RemoteFile → Except String Unit := fun _ => Except.ok ()

/-- Concrete extractor fixture. -/
def exU : Unit → Except String String := fun _ => Except.ok "text"

/-- Concrete embedder fixture. -/
def emU : String → Except String (List ℚ) := fun _ => Except.ok [1]

/-- Witness for the amended C8 at a concrete synced store. -/
theorem C8_second_run_idempotent_but_writes_witness :
    (sync_pdfs_core (processOne dlU exU emU) [rfSynced]
        (sync_pdfs_core (processOne dlU exU emU) [rfSynced] [dwSynced]).1).1 =
      (sync_pdfs_core (processOne dlU exU emU) [rfSynced] [dwSynced]).1 := by
  have htp : to_process [rfSynced] (buildMap [dwSynced]) = [] := by decide
  exact (C8_second_run_idempotent_but_writes dlU exU emU [rfSynced] [dwSynced]
    (by decide) (fun f hf => absurd (htp ▸ hf) (List.not_mem_nil f))).1
